import Mathlib

/-!
Shallow embedding of the `zoltrajs/cli-builder` argument-parsing core
(`src/parser.ts`: `ZoltraCLIParser`; `src/builder.ts`: `ZoltraCLIBuilder.parse`
dispatch) together with theorems settling the frozen claims about it.

Conventions of the embedding:
* JavaScript strings are Lean `String`s; all string algorithms are re-implemented
  structurally over `String.data` (`List Char`) so that every definition reduces
  inside the kernel.
* The static mutable `optionCache` becomes an explicit state value threaded
  through `parse`; a thrown JS exception becomes the `Except.error` branch,
  and the cache mutations that happened before a throw are kept, as they are in
  the real static field.
* JS numbers produced by `parseFloat` are modelled exactly: a finite value is a
  canonical pair `m × 10^e` (mantissa not divisible by 10 unless zero); IEEE-754
  rounding is abstracted away (no claim depends on it), `NaN` is `Option.none`.
-/

deriving instance DecidableEq for Except

namespace ZoltraCLI

/-! ## JS primitive helpers -/

/-- The character class `[a-zA-Z]` of the source regexes. -/
def isRegexLetter (c : Char) : Bool :=
  ('a' ≤ c && c ≤ 'z') || ('A' ≤ c && c ≤ 'Z')

/-- The character class `[a-zA-Z0-9_-]` (tail of an option name in
`OPTION_REGEX`). -/
def isNameChar (c : Char) : Bool :=
  isRegexLetter c || c.isDigit || c = '_' || c = '-'

/-- ECMAScript line terminators, which `.` in a regex without the `s` flag does
not match. -/
def isLineTerminator (c : Char) : Bool :=
  c = '\n' || c = '\r' || c = '\u2028' || c = '\u2029'

/-- ECMAScript whitespace as skipped by `parseFloat` and removed by
`String.prototype.trim` (the common ASCII cases plus NBSP/BOM and the line
separators; more exotic Unicode `Zs` characters are not modelled). -/
def jsWhitespaceChar (c : Char) : Bool :=
  c = ' ' || c = '\t' || c = '\n' || c = '\r' || c = '\x0b' || c = '\x0c' ||
    c = '\u00a0' || c = '\ufeff' || c = '\u2028' || c = '\u2029'

/-- `String.prototype.trim`. -/
def jsTrim (s : String) : String :=
  String.mk (((s.data.dropWhile jsWhitespaceChar).reverse.dropWhile
    jsWhitespaceChar).reverse)

/-- ASCII lowering of one character (`String.prototype.toLowerCase`; the values
compared against are ASCII-only). -/
def asciiLowerChar (c : Char) : Char :=
  if 'A' ≤ c ∧ c ≤ 'Z' then Char.ofNat (c.toNat + 32) else c

/-- `String.prototype.toLowerCase`. -/
def jsToLower (s : String) : String :=
  String.mk (s.data.map asciiLowerChar)

/-- `value.split(",")` on character lists: split at every comma, keeping empty
segments (JS semantics: `"".split(",") === [""]`). -/
def splitOnCommaChars : List Char → List Char → List String
  | [], acc => [String.mk acc.reverse]
  | ',' :: rest, acc => String.mk acc.reverse :: splitOnCommaChars rest []
  | c :: rest, acc => splitOnCommaChars rest (c :: acc)

/-- `value.split(",")`. -/
def splitOnComma (s : String) : List String :=
  splitOnCommaChars s.data []

/-- Decimal digits of a natural number, via explicit fuel so the definition is
structural (used for the template-literal cache keys `${...}`). -/
def natToStringAux : Nat → Nat → List Char → List Char
  | 0, _, acc => acc
  | _ + 1, 0, acc => acc
  | fuel + 1, n, acc =>
      natToStringAux fuel (n / 10) (Char.ofNat (n % 10 + '0'.toNat) :: acc)

/-- Decimal rendering of a natural number (JS number-to-string interpolation
for the nonnegative integers that appear in cache keys). -/
def natToString (n : Nat) : String :=
  if n = 0 then "0" else String.mk (natToStringAux (n + 1) n [])

/-! ## JS numbers (`parseFloat` results) -/

/-- A JS number that `parseFloat` can return (`NaN` is represented as `none`
at the use sites).  `finite m e` denotes the exact value `m × 10 ^ e`; the
constructors produced by `JSNum.mk10` are canonical (`m` is not divisible by
`10` unless the value is zero), so structural equality is value equality. -/
inductive JSNum where
  | finite (m : Int) (e : Int)
  | posInf
  | negInf
deriving DecidableEq, Repr

/-- Strip factors of ten from the mantissa into the exponent (fuel-based). -/
def stripTens : Nat → Int → Int → Int × Int
  | 0, m, e => (m, e)
  | fuel + 1, m, e =>
      if m % 10 = 0 ∧ m ≠ 0 then stripTens fuel (m / 10) (e + 1) else (m, e)

/-- Canonical finite JS number with value `m × 10 ^ e`. -/
def JSNum.mk10 (m : Int) (e : Int) : JSNum :=
  if m = 0 then .finite 0 0
  else
    let p := stripTens m.natAbs m e
    .finite p.1 p.2

/-- Canonical finite JS number with integer value `n`. -/
def JSNum.ofInt (n : Int) : JSNum := JSNum.mk10 n 0

/-- Numeric value of a digit list (most significant first). -/
def digitsToNat (ds : List Char) : Nat :=
  ds.foldl (fun a c => 10 * a + (c.toNat - '0'.toNat)) 0

/-- Exponent part of `StrDecimalLiteral`: `e`/`E`, optional sign, digits.  An
incomplete exponent contributes nothing (the longest valid prefix ends before
it). -/
def jsExponent : List Char → Int
  | c :: rest =>
      if c = 'e' ∨ c = 'E' then
        let p : Int × List Char :=
          match rest with
          | '+' :: r => (1, r)
          | '-' :: r => (-1, r)
          | _ => (1, rest)
        let eds := (List.span Char.isDigit p.2).1
        if eds = [] then 0 else p.1 * (digitsToNat eds : Int)
      else 0
  | [] => 0

/-- Mantissa/tail evaluation of `parseFloat` after sign handling: `intD` and
`fracD` are the digits before and after the decimal point, `rest` what follows
them. -/
def jsParseFloatTail (neg : Bool) (intD fracD rest : List Char) : Option JSNum :=
  if intD = [] ∧ fracD = [] then none
  else
    let m : Int := (digitsToNat (intD ++ fracD) : Nat)
    let e : Int := jsExponent rest - fracD.length
    some (JSNum.mk10 (if neg then -m else m) e)

/-- ECMAScript `parseFloat` on a character list: skip leading whitespace, read
an optional sign, then the longest prefix that is a `StrUnsignedDecimalLiteral`
(`Infinity`, or digits with optional fraction and exponent); `none` is `NaN`. -/
def jsParseFloatChars (cs0 : List Char) : Option JSNum :=
  let cs1 := cs0.dropWhile jsWhitespaceChar
  let signed : Bool × List Char :=
    match cs1 with
    | '-' :: r => (true, r)
    | '+' :: r => (false, r)
    | _ => (false, cs1)
  let neg := signed.1
  let cs := signed.2
  if cs.take 8 = "Infinity".data then some (if neg then .negInf else .posInf)
  else
    let ip := List.span Char.isDigit cs
    match ip.2 with
    | '.' :: r =>
        let fp := List.span Char.isDigit r
        jsParseFloatTail neg ip.1 fp.1 fp.2
    | other => jsParseFloatTail neg ip.1 [] other

/-- `parseFloat(value)`, with `none` for `NaN`. -/
def jsParseFloat (s : String) : Option JSNum :=
  jsParseFloatChars s.data

/-! ## Data model (`src/types.ts`) -/

/-- `CLIOption.type : "string" | "number" | "boolean" | "array"`. -/
inductive OptionType where
  | string
  | number
  | boolean
  | array
deriving DecidableEq, Repr

/-- A typed option value as stored in `ParsedArgs.options` (the `any`-typed
values the parser actually produces). -/
inductive Value where
  | str (s : String)
  | num (n : JSNum)
  | bool (b : Bool)
  | arr (elems : List String)
deriving DecidableEq, Repr

/-- `CLIOption` from `types.ts`.  `undefined` fields become `none`/`false`;
the TS field `alias` is spelled `aliasName` because `alias` is reserved in
Lean. -/
structure CLIOption where
  name : String
  aliasName : Option String
  description : String
  type : OptionType
  required : Bool
  default : Option Value
  choices : Option (List String)
deriving DecidableEq, Repr

/-- `CLIArgument` from `types.ts`. -/
structure CLIArgument where
  name : String
  description : String
  required : Bool
  variadic : Bool
deriving DecidableEq, Repr

/-- `ParsedArgs` from `types.ts`.  The `options` record is an insertion-ordered
association list; `setOpt` mimics JS property assignment (update in place or
append). -/
structure ParsedArgs where
  command : List String
  options : List (String × Value)
  args : List String
deriving DecidableEq, Repr

/-- `parsed.options[name] = v` (JS object assignment). -/
def setOpt : List (String × Value) → String → Value → List (String × Value)
  | [], k, v => [(k, v)]
  | (k', v') :: rest, k, v =>
      if k' = k then (k', v) :: rest else (k', v') :: setOpt rest k v

/-- `parsed.options[name]` (JS property read; `none` is `undefined`). -/
def getOpt : List (String × Value) → String → Option Value
  | [], _ => none
  | (k', v') :: rest, k => if k' = k then some v' else getOpt rest k

/-- The structured content of the `Error`s thrown by the parser and builder. -/
inductive CLIError where
  | invalidOptionFormat (token : String)
  | typeErr (optName : String) (raw : String)
  | choiceErr (optName : String) (choices : List String)
  | missingArg (argName : String)
  | missingOption (optName : String) (aliasName : Option String)
  | unknownCommand (name : String)
deriving DecidableEq, Repr

/-- The `string | boolean` type of a raw option value before coercion. -/
inductive RawValue where
  | str (s : String)
  | bool (b : Bool)
deriving DecidableEq, Repr

/-! ## `ZoltraCLIParser` (`src/parser.ts`) -/

/-- The part of `OPTION_REGEX` after the dashes:
`([a-zA-Z][a-zA-Z0-9_-]*)(?:=(.+))?$`.  Returns the captured name and, when
present, the captured `=`-value (which must be nonempty and free of line
terminators, since `.` does not match those). -/
def matchOptionCore : List Char → Option (String × Option String)
  | c :: cs =>
      if isRegexLetter c then
        let p := List.span isNameChar cs
        let name := String.mk (c :: p.1)
        match p.2 with
        | [] => some (name, none)
        | '=' :: vcs =>
            if vcs ≠ [] ∧ vcs.all (fun ch => !isLineTerminator ch) then
              some (name, some (String.mk vcs))
            else none
        | _ => none
      else none
  | [] => none

/-- `OPTION_REGEX = /^--?([a-zA-Z][a-zA-Z0-9_-]*)(?:=(.+))?$/` as a character
scanner: strip one or two leading dashes and run `matchOptionCore`.  The tail
after `--?` must start with a letter, so the regex engine's backtracking from
two dashes to one can never succeed and is not modelled. -/
def matchOptionRegexChars (cs : List Char) : Option (String × Option String) :=
  match cs with
  | [] => none
  | c0 :: rest =>
      if c0 = '-' then
        match rest with
        | [] => matchOptionCore []
        | c1 :: rest2 => if c1 = '-' then matchOptionCore rest2 else matchOptionCore rest
      else none

/-- `OPTION_REGEX` applied to a token. -/
def matchOptionRegex (token : String) : Option (String × Option String) :=
  matchOptionRegexChars token.data

/-- `SHORT_OPTION_REGEX = /^-([a-zA-Z0-9]+)$/` as a character scanner. -/
def matchShortOptionRegexChars : List Char → Option String
  | '-' :: rest =>
      if rest ≠ [] ∧ rest.all (fun c => isRegexLetter c || c.isDigit) then
        some (String.mk rest)
      else none
  | _ => none

/-- `SHORT_OPTION_REGEX` applied to a token. -/
def matchShortOptionRegex (token : String) : Option String :=
  matchShortOptionRegexChars token.data

/-- `ZoltraCLIParser.isOption`. -/
def isOption (token : String) : Bool :=
  (matchOptionRegex token).isSome

/-- `token.startsWith("-")`. -/
def startsWithDash (token : String) : Bool :=
  match token.data with
  | '-' :: _ => true
  | _ => false

/-- `ZoltraCLIParser.parseOption(token, tokens, index)`.  The `Invalid option
format` throws become `Except.error`; the short-regex branch is kept even
though `parseOption` is only ever called on tokens `OPTION_REGEX` accepts. -/
def parseOption (token : String) (tokens : List String) (index : Nat) :
    Except CLIError (String × RawValue) :=
  match matchOptionRegex token with
  | some nv =>
      let name := nv.1
      if name = "" then .error (.invalidOptionFormat token)
      else
        match nv.2 with
        | some value => .ok (name, .str value)
        | none =>
            match tokens.get? (index + 1) with
            | some nextToken =>
                if nextToken ≠ "" ∧ isOption nextToken = false then
                  .ok (name, .str nextToken)
                else .ok (name, .bool true)
            | none => .ok (name, .bool true)
  | none =>
      match matchShortOptionRegex token with
      | some name =>
          if name = "" then .error (.invalidOptionFormat token)
          else
            match tokens.get? (index + 1) with
            | some nextToken =>
                if nextToken ≠ "" ∧ isOption nextToken = false then
                  .ok (name, .str nextToken)
                else .ok (name, .bool true)
            | none => .ok (name, .bool true)
      | none => .error (.invalidOptionFormat token)

/-- `ZoltraCLIParser.parseOptionValue(value, option)`. -/
def parseOptionValue (value : RawValue) (opt : CLIOption) : Except CLIError Value :=
  match value with
  | .bool b => .ok (.bool b)
  | .str v =>
      match opt.type with
      | .number =>
          match jsParseFloat v with
          | none => .error (.typeErr opt.name v)
          | some n => .ok (.num n)
      | .boolean => .ok (.bool (jsToLower v == "true" || v == "1"))
      | .array => .ok (.arr ((splitOnComma v).map jsTrim))
      | .string =>
          match opt.choices with
          | some choices =>
              if choices.contains v then .ok (.str v)
              else .error (.choiceErr opt.name choices)
          | none => .ok (.str v)

/-- The static `optionCache : Map<string, CLIOption | null>`.  Entries are
prepended and looked up first-match, which is observationally `Map.set`/
`Map.get`; the inner `none` is the stored `null`, the outer `none` of a lookup
is `undefined` (not cached). -/
abbrev Cache := List (String × Option CLIOption)

/-- `optionCache.get(key)`. -/
def cacheGet : Cache → String → Option (Option CLIOption)
  | [], _ => none
  | (k', v) :: rest, k => if k' = k then some v else cacheGet rest k

/-- `optionCache.set(key, value)`. -/
def cacheSet (cache : Cache) (k : String) (v : Option CLIOption) : Cache :=
  (k, v) :: cache

/-- `ZoltraCLIParser.clearCache()`. -/
def ZoltraCLIParser.clearCache : Cache := []

/-- The template literal `` `${name}:${options.length}` ``. -/
def longCacheKey (name : String) (optionsLen : Nat) : String :=
  name ++ ":" ++ natToString optionsLen

/-- The template literal `` `alias:${shortOpt}:${options.length}` ``. -/
def aliasCacheKey (c : Char) (optionsLen : Nat) : String :=
  "alias:" ++ String.singleton c ++ ":" ++ natToString optionsLen

/-- `options.find(opt => opt.name === name || opt.alias === name) || null`. -/
def findOptionByName (options : List CLIOption) (name : String) : Option CLIOption :=
  options.find? (fun opt => opt.name == name || opt.aliasName == some name)

/-- `options.find(opt => opt.alias === shortOpt) || null` for a one-character
cluster entry. -/
def findOptionByAlias (options : List CLIOption) (c : Char) : Option CLIOption :=
  options.find? (fun opt => opt.aliasName == some (String.singleton c))

/-- The cached name/alias lookup in the first branch of the parse loop. -/
def cachedLookupName (cache : Cache) (options : List CLIOption) (name : String) :
    Option CLIOption × Cache :=
  let key := longCacheKey name options.length
  match cacheGet cache key with
  | some cachedOpt => (cachedOpt, cache)
  | none =>
      let res := findOptionByName options name
      (res, cacheSet cache key res)

/-- The cached alias lookup in the combined-short-cluster branch. -/
def cachedLookupAlias (cache : Cache) (options : List CLIOption) (c : Char) :
    Option CLIOption × Cache :=
  let key := aliasCacheKey c options.length
  match cacheGet cache key with
  | some cachedOpt => (cachedOpt, cache)
  | none =>
      let res := findOptionByAlias options c
      (res, cacheSet cache key res)

/-- The value a matched cluster character receives: booleans get `true`,
others greedily take the next whole token when it is a nonempty non-option,
else `true` (no coercion happens in this branch). -/
def clusterValue (opt : CLIOption) (nextToken? : Option String) : Value :=
  if opt.type = .boolean then .bool true
  else
    match nextToken? with
    | some nextToken =>
        if nextToken ≠ "" ∧ isOption nextToken = false then .str nextToken
        else .bool true
    | none => .bool true

/-- The `for (const shortOpt of shortOpts)` loop of the cluster branch,
threading the options record and the cache. -/
def clusterStep (tokens : List String) (i : Nat) (options : List CLIOption) :
    List Char → List (String × Value) → Cache → List (String × Value) × Cache
  | [], optsMap, cache => (optsMap, cache)
  | c :: cs, optsMap, cache =>
      let lk := cachedLookupAlias cache options c
      match lk.1 with
      | some opt =>
          clusterStep tokens i options cs
            (setOpt optsMap opt.name (clusterValue opt (tokens.get? (i + 1)))) lk.2
      | none => clusterStep tokens i options cs optsMap lk.2

/-- The plain-token branch: the very first plain token becomes the command,
everything later a positional argument. -/
def recordPlainToken (parsed : ParsedArgs) (token : String) : ParsedArgs :=
  if parsed.command.length = 0 ∧ parsed.args.length = 0 then
    { parsed with command := parsed.command ++ [token] }
  else
    { parsed with args := parsed.args ++ [token] }

/-- The `while (i < tokens.length)` loop of `ZoltraCLIParser.parse`.  The loop
index `i` is kept for the `tokens[i + 1]` lookahead while the recursion is
structural on the remaining suffix `tokens.drop i` (they advance in lockstep;
the cluster branch advances by two when the cluster has a single character). -/
def parseLoop (tokens : List String) (options : List CLIOption) :
    List String → Nat → ParsedArgs → Cache → Except CLIError ParsedArgs × Cache
  | [], _, parsed, cache => (.ok parsed, cache)
  | token :: rem, i, parsed, cache =>
      if token = "" then parseLoop tokens options rem (i + 1) parsed cache
      else if isOption token then
        match parseOption token tokens i with
        | .error e => (.error e, cache)
        | .ok nv =>
            let lk := cachedLookupName cache options nv.1
            match lk.1 with
            | some opt =>
                (match parseOptionValue nv.2 opt with
                 | .error e => (.error e, lk.2)
                 | .ok v =>
                     parseLoop tokens options rem (i + 1)
                       { parsed with options := setOpt parsed.options opt.name v } lk.2)
            | none => parseLoop tokens options rem (i + 1) parsed lk.2
      else if startsWithDash token then
        let shortOpts := token.data.drop 1
        let cl := clusterStep tokens i options shortOpts parsed.options cache
        if shortOpts.length > 1 then
          parseLoop tokens options rem (i + 1) { parsed with options := cl.1 } cl.2
        else
          match rem with
          | [] => (.ok { parsed with options := cl.1 }, cl.2)
          | _ :: rem2 =>
              parseLoop tokens options rem2 (i + 2) { parsed with options := cl.1 } cl.2
      else
        parseLoop tokens options rem (i + 1) (recordPlainToken parsed token) cache

/-- The default-seeding loop at the top of `parse`. -/
def seedDefaults (options : List CLIOption) : List (String × Value) :=
  options.foldl
    (fun m opt =>
      match opt.default with
      | some d => setOpt m opt.name d
      | none => m)
    []

set_option linter.unusedVariables false in
/-- `ZoltraCLIParser.parse(argv, options, args)` with the static cache made
explicit: returns the parse outcome and the cache as left behind (also on a
throw).  `args` is unused by the source function, exactly as here. -/
def ZoltraCLIParser.parseWith (cache : Cache) (argv : List String)
    (options : List CLIOption) (args : List CLIArgument) :
    Except CLIError ParsedArgs × Cache :=
  let tokens := argv.drop 2
  parseLoop tokens options tokens 0
    { command := [], options := seedDefaults options, args := [] } cache

/-- `ZoltraCLIParser.parse` run with a fresh (just cleared) cache, keeping
only the outcome. -/
def ZoltraCLIParser.parse (argv : List String) (options : List CLIOption)
    (args : List CLIArgument) : Except CLIError ParsedArgs :=
  (ZoltraCLIParser.parseWith ZoltraCLIParser.clearCache argv options args).1

end ZoltraCLI

namespace ZoltraCLI

/-! ## Validators (`src/parser.ts`) -/

/-- The `for (const arg of args)` loop of `validateArgs`, carrying `argIndex`
against the fixed positional count. -/
def validateArgsLoop (numArgs : Nat) : Nat → List CLIArgument → Except CLIError Unit
  | _, [] => .ok ()
  | argIndex, arg :: rest =>
      if argIndex ≥ numArgs then
        if arg.required then .error (.missingArg arg.name) else .ok ()
      else if arg.variadic then .ok ()
      else validateArgsLoop numArgs (argIndex + 1) rest

/-- `ZoltraCLIParser.validateArgs(parsed, args)`. -/
def ZoltraCLIParser.validateArgs (parsed : ParsedArgs) (args : List CLIArgument) :
    Except CLIError Unit :=
  validateArgsLoop parsed.args.length 0 args

/-- Outcome of `validateOptions`.  The interactive path suspends into the
external `prompts` collaborator (I/O), which the embedding cannot run; it is
reified as `needsPrompt` carrying the missing options, in order, that would be
prompted for.  The claims only concern the non-interactive paths. -/
inductive ValidateOptionsResult where
  | ok (parsed : ParsedArgs)
  | err (e : CLIError)
  | needsPrompt (missing : List CLIOption) (parsed : ParsedArgs)
deriving DecidableEq, Repr

/-- `ZoltraCLIParser.validateOptions(parsed, options, interactive)`:
collect the required options absent from `parsed.options` (schema order);
none missing returns `parsed` unchanged; missing and non-interactive throws
for the first one; missing and interactive enters the prompt loop. -/
def ZoltraCLIParser.validateOptions (parsed : ParsedArgs)
    (options : List CLIOption) (interactive : Bool) : ValidateOptionsResult :=
  let missingOptions :=
    options.filter (fun opt => opt.required && (getOpt parsed.options opt.name).isNone)
  match missingOptions, interactive with
  | [], _ => .ok parsed
  | m :: ms, true => .needsPrompt (m :: ms) parsed
  | m :: _, false => .err (.missingOption m.name m.aliasName)

/-! ## `ZoltraCLIBuilder.parse` dispatch (`src/builder.ts`) -/

/-- JS truthiness of a stored option value (`parsed.options.help` etc. used as
an `if` condition). -/
def Value.truthy : Value → Bool
  | .str s => s ≠ ""
  | .num n =>
      match n with
      | .finite m _ => m ≠ 0
      | _ => true
  | .bool b => b
  | .arr _ => true

/-- `CLICommand` from `types.ts`, minus the `action` handler function (which
outcome carries it is recorded in `DispatchOutcome`) and minus the unused
`subcommands` field. -/
structure CLICommand where
  name : String
  description : String
  aliases : Option (List String)
  options : Option (List CLIOption)
  arguments : Option (List CLIArgument)
deriving DecidableEq, Repr

/-- What `ZoltraCLIBuilder.parse` does after its internal parsing: print help
or version, invoke the default command's action, invoke a matched command's
action, or suspend into interactive prompting. -/
inductive DispatchOutcome where
  | showHelp
  | showVersion
  | runDefault (args : List String) (options : List (String × Value))
  | runCommand (cmd : CLICommand) (args : List String) (options : List (String × Value))
  | interactivePrompt (missing : List CLIOption)
deriving DecidableEq, Repr

/-- `cmd.name === commandName || cmd.aliases?.includes(commandName)`. -/
def commandMatches (commandName : String) (cmd : CLICommand) : Bool :=
  cmd.name == commandName || (cmd.aliases.getD []).contains commandName

/-- `ZoltraCLIBuilder.parse(argv)` up to the point where an action would be
invoked, with builder state (`commands`, `globalOptions`, `interactive`) and
the parser cache explicit.  Thrown errors surface as `Except.error` (the
builder's catch block only renders them). -/
def ZoltraCLIBuilder.parse (commands : List CLICommand)
    (globalOptions : List CLIOption) (interactive : Bool) (cache : Cache)
    (argv : List String) : Except CLIError DispatchOutcome × Cache :=
  match ZoltraCLIParser.parseWith cache argv globalOptions [] with
  | (.error e, cache1) => (.error e, cache1)
  | (.ok parsed, cache1) =>
      if (getOpt parsed.options "help").elim false Value.truthy then
        (.ok .showHelp, cache1)
      else if (getOpt parsed.options "version").elim false Value.truthy then
        (.ok .showVersion, cache1)
      else
        let commandName := parsed.command.head?.getD ""
        match commands.find? (commandMatches commandName) with
        | none =>
            if commands.length = 1 ∧ commands.head?.map CLICommand.name = some "" then
              (.ok (.runDefault parsed.args parsed.options), cache1)
            else (.error (.unknownCommand commandName), cache1)
        | some cmd =>
            match ZoltraCLIParser.parseWith cache1 argv
                (globalOptions ++ cmd.options.getD []) (cmd.arguments.getD []) with
            | (.error e, cache2) => (.error e, cache2)
            | (.ok commandParsed, cache2) =>
                match ZoltraCLIParser.validateArgs commandParsed (cmd.arguments.getD []) with
                | .error e => (.error e, cache2)
                | .ok _ =>
                    match ZoltraCLIParser.validateOptions commandParsed
                        (globalOptions ++ cmd.options.getD []) interactive with
                    | .ok p => (.ok (.runCommand cmd p.args p.options), cache2)
                    | .err e => (.error e, cache2)
                    | .needsPrompt missing _ => (.ok (.interactivePrompt missing), cache2)

end ZoltraCLI
namespace ZoltraCLI

/-! ## Uncached reference semantics (spec §4.3)

The Option Resolution Cache contract compares the cached lookup with "a direct
linear scan over `schema` for {name == token OR alias == token}".  The
following parser is that reference point: it is `parseLoop` with every cached
lookup replaced by the direct scan and no cache state at all. -/

/-- Modelled from the spec: the cluster branch with the per-character alias
lookup done by direct linear scan instead of through the cache. -/
def clusterStepU (tokens : List String) (i : Nat) (options : List CLIOption) :
    List Char → List (String × Value) → List (String × Value)
  | [], optsMap => optsMap
  | c :: cs, optsMap =>
      match findOptionByAlias options c with
      | some opt =>
          clusterStepU tokens i options cs
            (setOpt optsMap opt.name (clusterValue opt (tokens.get? (i + 1))))
      | none => clusterStepU tokens i options cs optsMap

/-- Modelled from the spec: the parse loop with option resolution done by
direct linear scan (`findOptionByName`) instead of through the cache. -/
def parseLoopU (tokens : List String) (options : List CLIOption) :
    List String → Nat → ParsedArgs → Except CLIError ParsedArgs
  | [], _, parsed => .ok parsed
  | token :: rem, i, parsed =>
      if token = "" then parseLoopU tokens options rem (i + 1) parsed
      else if isOption token then
        match parseOption token tokens i with
        | .error e => .error e
        | .ok nv =>
            match findOptionByName options nv.1 with
            | some opt =>
                (match parseOptionValue nv.2 opt with
                 | .error e => .error e
                 | .ok v =>
                     parseLoopU tokens options rem (i + 1)
                       { parsed with options := setOpt parsed.options opt.name v })
            | none => parseLoopU tokens options rem (i + 1) parsed
      else if startsWithDash token then
        let shortOpts := token.data.drop 1
        let optsMap := clusterStepU tokens i options shortOpts parsed.options
        if shortOpts.length > 1 then
          parseLoopU tokens options rem (i + 1) { parsed with options := optsMap }
        else
          match rem with
          | [] => .ok { parsed with options := optsMap }
          | _ :: rem2 =>
              parseLoopU tokens options rem2 (i + 2) { parsed with options := optsMap }
      else
        parseLoopU tokens options rem (i + 1) (recordPlainToken parsed token)

set_option linter.unusedVariables false in
/-- Modelled from the spec: `parse` against the uncached reference lookup. -/
def parseU (argv : List String) (options : List CLIOption)
    (args : List CLIArgument) : Except CLIError ParsedArgs :=
  let tokens := argv.drop 2
  parseLoopU tokens options tokens 0
    { command := [], options := seedDefaults options, args := [] }

/-! ## Concrete fixtures used by witnesses and counterexamples -/

/-- An option record with the given name, alias and kind and every optional
field absent. -/
def mkOpt (n : String) (a : Option String) (t : OptionType) : CLIOption :=
  { name := n, aliasName := a, description := "", type := t, required := false,
    default := none, choices := none }

/-- An argument record with the given name and flags. -/
def mkArg (n : String) (req : Bool) (var : Bool) : CLIArgument :=
  { name := n, description := "", required := req, variadic := var }

/-- The `verbose`/`-v` boolean option of the repository's own test suite. -/
def verboseOpt : CLIOption := mkOpt "verbose" (some "v") .boolean

/-- The `quiet`/`-q` boolean option of the repository's own test suite. -/
def quietOpt : CLIOption := mkOpt "quiet" (some "q") .boolean

/-- A plain string option named `output`. -/
def outputOpt : CLIOption := mkOpt "output" none .string

/-- A number option named `port`. -/
def portOpt : CLIOption := mkOpt "port" none .number

/-- The builder's implicit `help` global option. -/
def helpOpt : CLIOption := mkOpt "help" (some "h") .boolean

/-- The builder's implicit `version` global option. -/
def versionOpt : CLIOption := mkOpt "version" (some "V") .boolean

/-- A command record with the given name and no aliases, options or
arguments. -/
def mkCmd (n : String) : CLICommand :=
  { name := n, description := "", aliases := none, options := none,
    arguments := none }

/-- The `build` command of the spec's unknown-command scenario. -/
def buildCmd : CLICommand := mkCmd "build"

/-- The `test` command of the spec's unknown-command scenario. -/
def testCmd : CLICommand := mkCmd "test"

/-- A default (empty-named) command. -/
def defaultCmd : CLICommand := mkCmd ""

/-- A string option named `output` that declares a default. -/
def outputDefaultOpt : CLIOption :=
  { mkOpt "output" none .string with default := some (.str "./dist") }

end ZoltraCLI
namespace ZoltraCLI

/-! ## Remaining definitions used by theorem statements -/

/-- The default value "declared" for name `n` by a schema: the default of the
last option named `n` that carries one (later schema entries overwrite earlier
ones during seeding). -/
def declaredDefault (options : List CLIOption) (n : String) : Option Value :=
  (options.reverse.find? (fun o => o.name == n && o.default.isSome)).bind
    CLIOption.default

/-- The cache agrees with the direct linear scan over `options` at every key
the parse loop can consult for this schema: every cached entry under a long
key of a colon-free name, or under an alias key, equals the scan result.
(Option names captured by `OPTION_REGEX` never contain `:`.) -/
def cacheConsistent (cache : Cache) (options : List CLIOption) : Prop :=
  (∀ n : String, ':' ∉ n.data → ∀ r,
      cacheGet cache (longCacheKey n options.length) = some r →
      r = findOptionByName options n) ∧
  (∀ c : Char, ∀ r,
      cacheGet cache (aliasCacheKey c options.length) = some r →
      r = findOptionByAlias options c)

/-! ## Helper lemmas -/

theorem matchOptionCore_name_facts {core : List Char} {nm : String}
    {v : Option String} (h : matchOptionCore core = some (nm, v)) :
    nm ≠ "" ∧ ∀ c ∈ nm.data, isNameChar c := by
  match core with
  | [] => simp [matchOptionCore] at h
  | c :: cs =>
    simp only [matchOptionCore, List.span_eq_take_drop] at h
    by_cases hl : isRegexLetter c
    · simp only [hl, if_true] at h
      have key : nm = String.mk (c :: cs.takeWhile isNameChar) := by
        split at h
        · exact congrArg Prod.fst (Option.some.inj h) |>.symm
        · split at h
          · exact congrArg Prod.fst (Option.some.inj h) |>.symm
          · exact absurd h (by simp)
        · exact absurd h (by simp)
      constructor
      · intro he
        have := congrArg String.data (key ▸ he)
        simp at this
      · intro ch hch
        have hch' : ch ∈ c :: cs.takeWhile isNameChar := by
          have := congrArg String.data key
          simpa [this] using hch
        rcases List.mem_cons.mp hch' with h1 | h2
        · subst h1; simp [isNameChar, hl]
        · exact List.mem_takeWhile_imp h2
    · simp [hl] at h

theorem matchOptionRegexChars_name_facts {cs : List Char} {nm : String}
    {v : Option String} (h : matchOptionRegexChars cs = some (nm, v)) :
    nm ≠ "" ∧ ∀ c ∈ nm.data, isNameChar c := by
  unfold matchOptionRegexChars at h
  match cs with
  | [] => simp at h
  | c0 :: rest =>
    simp only at h
    by_cases h0 : c0 = '-'
    · simp only [h0, if_true] at h
      match rest with
      | [] => exact matchOptionCore_name_facts h
      | c1 :: rest2 =>
        simp only at h
        by_cases h1 : c1 = '-'
        · simp only [h1, if_true] at h
          exact matchOptionCore_name_facts h
        · simp only [h1, if_false] at h
          exact matchOptionCore_name_facts h
    · simp [h0] at h

theorem matchOptionRegex_name_facts {t : String} {nm : String}
    {v : Option String} (h : matchOptionRegex t = some (nm, v)) :
    nm ≠ "" ∧ ∀ c ∈ nm.data, isNameChar c :=
  matchOptionRegexChars_name_facts h

theorem matchOptionRegex_token_ne_empty {t : String} {nv : String × Option String}
    (h : matchOptionRegex t = some nv) : t ≠ "" := by
  intro he
  subst he
  simp [matchOptionRegex, matchOptionRegexChars] at h

end ZoltraCLI
namespace ZoltraCLI

theorem getOpt_setOpt (m : List (String × Value)) (k : String) (v : Value)
    (n : String) : getOpt (setOpt m k v) n = if k = n then some v else getOpt m n := by
  induction m with
  | nil =>
    by_cases h : k = n <;> simp [setOpt, getOpt, h]
  | cons e rest ih =>
    obtain ⟨k', v'⟩ := e
    by_cases h : k' = k
    · subst h
      by_cases h2 : k' = n <;> simp [setOpt, getOpt, h2]
    · by_cases h2 : k' = n
      · subst h2
        have hkn : ¬k = k' := fun he => h he.symm
        simp [setOpt, getOpt, h, hkn]
      · simp [setOpt, getOpt, h, h2, ih]

theorem head?_filter {α : Type} (p : α → Bool) (l : List α) :
    (l.filter p).head? = l.find? p := by
  induction l with
  | nil => rfl
  | cons a l ih =>
    by_cases h : p a <;> simp [List.filter_cons, List.find?_cons, h, ih]

theorem parseOption_isOption_ok {token : String} (tokens : List String)
    (index : Nat) (h : isOption token = true) :
    ∃ nv, parseOption token tokens index = .ok nv := by
  obtain ⟨⟨nm, v⟩, hm⟩ := Option.isSome_iff_exists.mp h
  have hne := (matchOptionRegex_name_facts hm).1
  unfold parseOption
  rw [hm]
  simp only [hne, if_false]
  cases v with
  | some val => exact ⟨(nm, .str val), rfl⟩
  | none =>
    cases hnt : tokens.get? (index + 1) with
    | none => exact ⟨(nm, .bool true), rfl⟩
    | some nt =>
      by_cases hc : nt ≠ "" ∧ isOption nt = false
      · exact ⟨(nm, .str nt), by simp [hc]⟩
      · exact ⟨(nm, .bool true), by simp [hc]⟩

/-- C2.  The repository's own test (`parser.test.ts`, "should parse combined
short options") expects `-vq` to set both `verbose` and `quiet` to `true`.
The code instead matches `-vq` with `OPTION_REGEX` (whose name group accepts
`vq`), finds no option named or aliased `vq`, and silently drops the token, so
neither option is set; the cluster branch is unreachable for alphanumeric
clusters.  This theorem evaluates the code at the failing input. -/
theorem C2_code_eval :
    ZoltraCLIParser.parse ["node", "cli", "-vq"] [verboseOpt, quietOpt] [] =
      .ok { command := [], options := [], args := [] } ∧
    ZoltraCLIParser.parse ["node", "cli", "-qv"] [verboseOpt, quietOpt] [] =
      .ok { command := [], options := [], args := [] } ∧
    isOption "-vq" = true := by decide

/-- C1 counterexample.  For the string option `output`, `--output file.txt`
and `--output=file.txt` produce the same options map but different command
paths: the space-separated form records the value token `file.txt` again as
the command, so the two results are not identical. -/
theorem C1_counterexample :
    ZoltraCLIParser.parse ["node", "cli", "--output", "file.txt"] [outputOpt] [] =
      .ok { command := ["file.txt"], options := [("output", .str "file.txt")], args := [] } ∧
    ZoltraCLIParser.parse ["node", "cli", "--output=file.txt"] [outputOpt] [] =
      .ok { command := [], options := [("output", .str "file.txt")], args := [] } ∧
    ({ command := ["file.txt"], options := [("output", .str "file.txt")], args := [] } : ParsedArgs) ≠
      { command := [], options := [("output", .str "file.txt")], args := [] } := by decide

/-- C6 counterexample.  `--1` starts with a dash and contains no valid
identifier (`OPTION_REGEX` rejects it), yet parsing completes without any
error: the token falls into the combined-short-cluster branch and is silently
dropped. -/
theorem C6_counterexample :
    startsWithDash "--1" = true ∧ isOption "--1" = false ∧
    ZoltraCLIParser.parse ["node", "cli", "--1"] [] [] =
      .ok { command := [], options := [], args := [] } := by decide

/-- C10 counterexample.  `--port -5`: the non-option token `-5` is consumed as
the value of `port`, the cursor advances by one, and `-5` is reprocessed — but
through the combined-short-cluster branch, not as a plain token, so it appears
neither as the command nor as a positional argument. -/
theorem C10_counterexample :
    isOption "-5" = false ∧
    ZoltraCLIParser.parse ["node", "cli", "--port", "-5"] [portOpt] [] =
      .ok { command := [], options := [("port", .num (JSNum.ofInt (-5)))], args := [] } := by decide

/-- C3 counterexample.  With commands `build`, `test` and a default
(empty-named) command all registered, the unknown token `frobnicate` raises
`UnknownCommandError` instead of invoking the default command: the code only
falls back to the default when it is the *sole* registered command
(`commands.length === 1`). -/
theorem C3_counterexample :
    (ZoltraCLIBuilder.parse [buildCmd, testCmd, defaultCmd] [helpOpt, versionOpt]
        false [] ["node", "cli", "frobnicate"]).1 =
      .error (.unknownCommand "frobnicate") := by decide

/-- C4 counterexample.  Schema `[optional a, required b]` with no variadic
spec and an empty positional list: the required argument `b` has no
corresponding positional, yet `validateArgs` succeeds — the gap at the
non-required `a` stops validation before `b` is ever checked. -/
theorem C4_counterexample :
    ZoltraCLIParser.validateArgs { command := [], options := [], args := [] }
        [mkArg "a" false false, mkArg "b" true false] = .ok () ∧
    (mkArg "b" true false).required = true ∧
    (mkArg "a" false false).variadic = false ∧
    (mkArg "b" true false).variadic = false := by decide

end ZoltraCLI
namespace ZoltraCLI

theorem validateArgsLoop_no_variadic (numArgs : Nat) (args : List CLIArgument) :
    ∀ i : Nat, (∀ a ∈ args, a.variadic = false) → i ≤ numArgs →
    validateArgsLoop numArgs i args =
      match args.get? (numArgs - i) with
      | some a => if a.required then .error (.missingArg a.name) else .ok ()
      | none => .ok () := by
  induction args with
  | nil => intro i _ _; simp [validateArgsLoop]
  | cons a rest ih =>
    intro i hnv hi
    unfold validateArgsLoop
    by_cases hge : i ≥ numArgs
    · have heq : i = numArgs := le_antisymm hi hge
      subst heq
      rw [Nat.sub_self]
      simp [hge]
    · simp only [hge, if_false]
      have hv : a.variadic = false := hnv a (List.mem_cons_self a rest)
      rw [hv]
      simp only [Bool.false_eq_true, if_false]
      rw [ih (i + 1) (fun x hx => hnv x (List.mem_cons_of_mem a hx)) (by omega)]
      have hsub : numArgs - i = (numArgs - (i + 1)) + 1 := by omega
      rw [hsub]
      rfl

/-- C4 amended.  With no variadic spec, `validateArgs` is decided entirely by
the first spec that has no corresponding positional (the spec at index
`parsed.args.length`): it fails naming that spec iff it is required, and
succeeds otherwise — in particular later required specs are never reached. -/
theorem C4_amended (parsed : ParsedArgs) (args : List CLIArgument)
    (hnv : ∀ a ∈ args, a.variadic = false) :
    ZoltraCLIParser.validateArgs parsed args =
      match args.get? parsed.args.length with
      | some a => if a.required then .error (.missingArg a.name) else .ok ()
      | none => .ok () := by
  unfold ZoltraCLIParser.validateArgs
  have h := validateArgsLoop_no_variadic parsed.args.length args 0 hnv (Nat.zero_le _)
  simpa using h

/-- C4 witness: a required first spec with no positional does fail, naming it. -/
theorem C4_witness :
    ZoltraCLIParser.validateArgs { command := [], options := [], args := [] }
        [mkArg "x" true false] = .error (.missingArg "x") := by
  have h := C4_amended { command := [], options := [], args := [] }
    [mkArg "x" true false] (by decide)
  simpa using h

/-- C5.  Non-interactive option validation returns the parse result unchanged
when every required option is present, and otherwise errs with a
MissingOptionError for the first missing required option in schema
declaration order. -/
theorem C5_theorem (parsed : ParsedArgs) (options : List CLIOption) :
    ZoltraCLIParser.validateOptions parsed options false =
      match options.find? (fun opt => opt.required && (getOpt parsed.options opt.name).isNone) with
      | none => .ok parsed
      | some m => .err (.missingOption m.name m.aliasName) := by
  simp only [ZoltraCLIParser.validateOptions]
  rw [← head?_filter]
  generalize options.filter (fun opt => opt.required && (getOpt parsed.options opt.name).isNone) = fl
  cases fl with
  | nil => rfl
  | cons m ms => rfl

/-- C7.  Coercing a number-kind option from an explicit string value returns
exactly the `parseFloat` result when the string is numeric (accepted by
`parseFloat`), and fails with a TypeError citing the option name and the raw
text if and only if `parseFloat` yields `NaN`; the spec's scenario
`--port 3000` binds the number 3000. -/
theorem C7_theorem (opt : CLIOption) (v : String) (hty : opt.type = .number) :
    (∀ n, jsParseFloat v = some n → parseOptionValue (.str v) opt = .ok (.num n)) ∧
    (jsParseFloat v = none → parseOptionValue (.str v) opt = .error (.typeErr opt.name v)) ∧
    (∀ e, parseOptionValue (.str v) opt = .error e →
      jsParseFloat v = none ∧ e = .typeErr opt.name v) ∧
    ZoltraCLIParser.parse ["node", "cli", "--port", "3000"] [portOpt] [] =
      .ok { command := ["3000"], options := [("port", .num (JSNum.ofInt 3000))], args := [] } := by
  refine ⟨?_, ?_, ?_, by decide⟩
  · intro n hn
    simp [parseOptionValue, hty, hn]
  · intro hn
    simp [parseOptionValue, hty, hn]
  · intro e he
    simp only [parseOptionValue, hty] at he
    cases hn : jsParseFloat v with
    | none =>
      rw [hn] at he
      refine ⟨rfl, ?_⟩
      have := Except.error.inj he
      exact this.symm
    | some n =>
      rw [hn] at he
      exact absurd he (by simp)

/-- C7 witness at the numeric scenario input. -/
theorem C7_witness :
    (∀ n, jsParseFloat "3000" = some n →
      parseOptionValue (.str "3000") portOpt = .ok (.num n)) ∧
    (jsParseFloat "3000" = none →
      parseOptionValue (.str "3000") portOpt = .error (.typeErr portOpt.name "3000")) ∧
    (∀ e, parseOptionValue (.str "3000") portOpt = .error e →
      jsParseFloat "3000" = none ∧ e = .typeErr portOpt.name "3000") ∧
    ZoltraCLIParser.parse ["node", "cli", "--port", "3000"] [portOpt] [] =
      .ok { command := ["3000"], options := [("port", .num (JSNum.ofInt 3000))], args := [] } :=
  C7_theorem portOpt "3000" rfl

end ZoltraCLI
namespace ZoltraCLI

theorem getOpt_seedDefaults_aux (options : List CLIOption) :
    ∀ (m : List (String × Value)) (n : String),
      getOpt (options.foldl
        (fun m opt =>
          match opt.default with
          | some d => setOpt m opt.name d
          | none => m) m) n =
      (declaredDefault options n).elim (getOpt m n) some := by
  induction options with
  | nil => intro m n; simp [declaredDefault]
  | cons o os ih =>
    intro m n
    simp only [List.foldl_cons]
    rw [ih]
    have hdd : declaredDefault (o :: os) n =
        ((os.reverse.find? (fun x => x.name == n && x.default.isSome)).or
          (List.find? (fun x => x.name == n && x.default.isSome) [o])).bind
          CLIOption.default := by
      unfold declaredDefault
      rw [List.reverse_cons, List.find?_append]
    cases hf : os.reverse.find? (fun x => x.name == n && x.default.isSome) with
    | some x =>
      have hx : declaredDefault os n = x.default := by
        unfold declaredDefault; rw [hf]; rfl
      have hx2 : declaredDefault (o :: os) n = x.default := by
        rw [hdd, hf]; rfl
      have hps : x.default.isSome = true := by
        have := List.find?_some hf
        exact (Bool.and_elim_right this)
      obtain ⟨d, hd⟩ := Option.isSome_iff_exists.mp hps
      rw [hx, hx2, hd]
      rfl
    | none =>
      have hos : declaredDefault os n = none := by
        unfold declaredDefault; rw [hf]; rfl
      rw [hos]
      by_cases hp : (o.name == n && o.default.isSome) = true
      · have hname : o.name = n := beq_iff_eq.mp (Bool.and_elim_left hp)
        obtain ⟨d, hd⟩ := Option.isSome_iff_exists.mp (Bool.and_elim_right hp)
        have hoc : declaredDefault (o :: os) n = some d := by
          rw [hdd, hf]
          simp [List.find?, hp, hd, hname]
        rw [hoc, hd]
        simp only [Option.elim]
        rw [getOpt_setOpt, hname]
        simp
      · have hoc : declaredDefault (o :: os) n = none := by
          rw [hdd, hf]
          simp [List.find?, hp]
        rw [hoc]
        simp only [Option.elim]
        cases hdef : o.default with
        | none => rfl
        | some d =>
          have hnn : ¬o.name = n := by
            intro he
            apply hp
            simp [he, hdef]
          rw [getOpt_setOpt]
          simp [hnn]

theorem getOpt_seedDefaults (options : List CLIOption) (n : String) :
    getOpt (seedDefaults options) n = declaredDefault options n := by
  unfold seedDefaults
  rw [getOpt_seedDefaults_aux]
  cases declaredDefault options n with
  | none => simp [getOpt]
  | some d => rfl

/-- C9.  Parsing an empty token list yields an empty command path, no
positionals, and an options map that binds exactly the declared defaults:
looking up any name returns the default of the (last) option of that name
declaring one, and nothing otherwise. -/
theorem C9_theorem (argv : List String) (options : List CLIOption)
    (args : List CLIArgument) (n : String) (h : argv.drop 2 = []) :
    ZoltraCLIParser.parse argv options args =
      .ok { command := [], options := seedDefaults options, args := [] } ∧
    getOpt (seedDefaults options) n = declaredDefault options n := by
  constructor
  · unfold ZoltraCLIParser.parse ZoltraCLIParser.parseWith
    rw [h]
    rfl
  · exact getOpt_seedDefaults options n

/-- C9 witness: a two-entry argv (nothing after the program/script tokens)
with one defaulted and one undefaulted option. -/
theorem C9_witness :
    (ZoltraCLIParser.parse ["node", "cli"] [outputDefaultOpt, verboseOpt] [] =
      .ok { command := [], options := seedDefaults [outputDefaultOpt, verboseOpt],
            args := [] }) ∧
    getOpt (seedDefaults [outputDefaultOpt, verboseOpt]) "output" =
      declaredDefault [outputDefaultOpt, verboseOpt] "output" :=
  C9_theorem ["node", "cli"] [outputDefaultOpt, verboseOpt] [] "output" rfl

end ZoltraCLI
namespace ZoltraCLI

theorem parseOptionValue_no_format {rv : RawValue} {opt : CLIOption} {e : CLIError}
    (h : parseOptionValue rv opt = .error e) (t : String) :
    e ≠ .invalidOptionFormat t := by
  cases rv with
  | bool b => simp [parseOptionValue] at h
  | str v =>
    cases hty : opt.type
    case string =>
      simp only [parseOptionValue, hty] at h
      split at h
      · split at h
        · exact absurd h (by simp)
        · have he := Except.error.inj h
          rw [← he]
          simp
      · exact absurd h (by simp)
    case number =>
      simp only [parseOptionValue, hty] at h
      cases hn : jsParseFloat v with
      | none =>
        rw [hn] at h
        have he := Except.error.inj h
        rw [← he]
        simp
      | some n => rw [hn] at h; simp at h
    case boolean => simp [parseOptionValue, hty] at h
    case array => simp [parseOptionValue, hty] at h

theorem parseLoop_nil (tokens : List String) (options : List CLIOption)
    (i : Nat) (parsed : ParsedArgs) (cache : Cache) :
    parseLoop tokens options [] i parsed cache = (.ok parsed, cache) := rfl

/-- One unfolding of the parse loop at a nonempty remainder, with the local
`let`s expanded (provable by `rfl` for either shape of the tail). -/
theorem parseLoop_cons (tokens : List String) (options : List CLIOption)
    (token : String) (rem1 : List String) (i : Nat) (parsed : ParsedArgs)
    (cache : Cache) :
    parseLoop tokens options (token :: rem1) i parsed cache =
      if token = "" then parseLoop tokens options rem1 (i + 1) parsed cache
      else if isOption token then
        match parseOption token tokens i with
        | .error e => (.error e, cache)
        | .ok nv =>
            (match (cachedLookupName cache options nv.1).1 with
             | some opt =>
                 (match parseOptionValue nv.2 opt with
                  | .error e => (.error e, (cachedLookupName cache options nv.1).2)
                  | .ok v =>
                      parseLoop tokens options rem1 (i + 1)
                        { parsed with options := setOpt parsed.options opt.name v }
                        (cachedLookupName cache options nv.1).2)
             | none =>
                 parseLoop tokens options rem1 (i + 1) parsed
                   (cachedLookupName cache options nv.1).2)
      else if startsWithDash token then
        (if (token.data.drop 1).length > 1 then
          parseLoop tokens options rem1 (i + 1)
            { parsed with
                options := (clusterStep tokens i options (token.data.drop 1)
                  parsed.options cache).1 }
            (clusterStep tokens i options (token.data.drop 1) parsed.options cache).2
        else
          match rem1 with
          | [] =>
              (.ok { parsed with
                  options := (clusterStep tokens i options (token.data.drop 1)
                    parsed.options cache).1 },
                (clusterStep tokens i options (token.data.drop 1) parsed.options cache).2)
          | _ :: rem2 =>
              parseLoop tokens options rem2 (i + 2)
                { parsed with
                    options := (clusterStep tokens i options (token.data.drop 1)
                      parsed.options cache).1 }
                (clusterStep tokens i options (token.data.drop 1) parsed.options cache).2)
      else
        parseLoop tokens options rem1 (i + 1) (recordPlainToken parsed token) cache := by
  cases rem1 <;> rfl

theorem parseLoop_no_format (tokens : List String) (options : List CLIOption) :
    ∀ (k : Nat) (rem : List String), rem.length ≤ k →
    ∀ (i : Nat) (parsed : ParsedArgs) (cache : Cache) (t : String),
      (parseLoop tokens options rem i parsed cache).1 ≠
        .error (.invalidOptionFormat t) := by
  intro k
  induction k with
  | zero =>
    intro rem hlen i parsed cache t
    have hnil : rem = [] := List.length_eq_zero.mp (Nat.le_zero.mp hlen)
    subst hnil
    rw [parseLoop_nil]
    simp
  | succ k ih =>
    intro rem hlen i parsed cache t
    cases rem with
    | nil => rw [parseLoop_nil]; simp
    | cons token rem1 =>
      have hlen1 : rem1.length ≤ k := by
        simp only [List.length_cons] at hlen
        omega
      rw [parseLoop_cons]
      by_cases h0 : token = ""
      · simp only [h0, if_true]
        exact ih rem1 hlen1 (i + 1) parsed cache t
      · simp only [h0, if_false]
        by_cases h1 : isOption token = true
        · simp only [h1, if_true]
          obtain ⟨nv, hnv⟩ := parseOption_isOption_ok tokens i h1
          simp only [hnv]
          cases hlk : (cachedLookupName cache options nv.1).1 with
          | some opt =>
            simp only [hlk]
            cases hpv : parseOptionValue nv.2 opt with
            | error e =>
              simp only [hpv]
              intro heq
              exact parseOptionValue_no_format hpv t (Except.error.inj heq)
            | ok v =>
              simp only [hpv]
              exact ih rem1 hlen1 (i + 1) _ _ t
          | none =>
            simp only [hlk]
            exact ih rem1 hlen1 (i + 1) parsed _ t
        · simp only [h1, if_false]
          by_cases h2 : startsWithDash token = true
          · simp only [h2, if_true]
            by_cases h3 : (token.data.drop 1).length > 1
            · simp only [h3, if_true]
              exact ih rem1 hlen1 (i + 1) _ _ t
            · simp only [h3, if_false]
              cases rem1 with
              | nil => simp
              | cons t2 rem2 =>
                have hlen2 : rem2.length ≤ k := by
                  simp only [List.length_cons] at hlen
                  omega
                exact ih rem2 hlen2 (i + 2) _ _ t
          · simp only [h2, if_false]
            exact ih rem1 hlen1 (i + 1) _ _ t

/-- C6 amended.  No input ever produces the `Invalid option format` error:
tokens that start with a dash but match no option pattern are handled by the
combined-short-cluster branch without any error, and `parseOption` only runs
on tokens `OPTION_REGEX` accepts, so its throws are unreachable. -/
theorem C6_amended (cache : Cache) (argv : List String) (options : List CLIOption)
    (args : List CLIArgument) (t : String) :
    (ZoltraCLIParser.parseWith cache argv options args).1 ≠
      .error (.invalidOptionFormat t) := by
  unfold ZoltraCLIParser.parseWith
  exact parseLoop_no_format (argv.drop 2) options (argv.drop 2).length
    (argv.drop 2) le_rfl 0 _ cache t

end ZoltraCLI
namespace ZoltraCLI

/-- C3 amended.  When the initial parse succeeds, neither `help` nor `version`
is truthy, and the tentative command name matches no registered command name
or alias, dispatch invokes the default command's action (with the parsed
positionals/options) exactly when the command list is the singleton default
command; in every other no-match configuration it fails with an
UnknownCommandError naming the unmatched token. -/
theorem C3_amended (commands : List CLICommand) (globalOptions : List CLIOption)
    (interactive : Bool) (cache : Cache) (argv : List String)
    (parsed : ParsedArgs) (cache1 : Cache)
    (hp : ZoltraCLIParser.parseWith cache argv globalOptions [] = (.ok parsed, cache1))
    (hhelp : (getOpt parsed.options "help").elim false Value.truthy = false)
    (hver : (getOpt parsed.options "version").elim false Value.truthy = false)
    (hfind : commands.find? (commandMatches (parsed.command.head?.getD "")) = none) :
    ZoltraCLIBuilder.parse commands globalOptions interactive cache argv =
      if commands.length = 1 ∧ commands.head?.map CLICommand.name = some "" then
        (.ok (.runDefault parsed.args parsed.options), cache1)
      else
        (.error (.unknownCommand (parsed.command.head?.getD "")), cache1) := by
  unfold ZoltraCLIBuilder.parse
  simp only [hp, hhelp, hver, hfind, Bool.false_eq_true, if_false]

/-- C3 witness: with the default command as sole registered command, the
unknown token dispatches to the default action on the parsed bundle. -/
theorem C3_witness :
    ZoltraCLIBuilder.parse [defaultCmd] [helpOpt, versionOpt] false []
        ["node", "cli", "frobnicate"] = (.ok (.runDefault [] []), []) := by
  have h := C3_amended [defaultCmd] [helpOpt, versionOpt] false []
    ["node", "cli", "frobnicate"]
    { command := ["frobnicate"], options := [], args := [] } []
    (by decide) (by decide) (by decide) (by decide)
  simpa using h

/-- C10 amended.  A single-flag token (no `=` suffix) whose following token is
a nonempty non-option consumes it as its value yet advances the cursor by only
one position; when that value token does not start with a dash, the next
iteration processes it as a plain token, so it additionally lands in the
output through `recordPlainToken` — as the command if no command/positional
was recorded yet, as a positional otherwise. -/
theorem C10_amended (tokens : List String) (options : List CLIOption)
    (rem : List String) (i : Nat) (parsed : ParsedArgs) (cache : Cache)
    (tok v nm : String) (opt : CLIOption) (val : Value)
    (hm : matchOptionRegex tok = some (nm, none))
    (hnext : tokens.get? (i + 1) = some v)
    (hv : v ≠ "") (hvo : isOption v = false)
    (hvd : startsWithDash v = false)
    (hlk : (cachedLookupName cache options nm).1 = some opt)
    (hval : parseOptionValue (.str v) opt = .ok val) :
    parseLoop tokens options (tok :: v :: rem) i parsed cache =
      parseLoop tokens options rem (i + 2)
        (recordPlainToken { parsed with options := setOpt parsed.options opt.name val } v)
        (cachedLookupName cache options nm).2 := by
  have htokne : tok ≠ "" := matchOptionRegex_token_ne_empty hm
  have hopt : isOption tok = true := by simp [isOption, hm]
  have hpo : parseOption tok tokens i = .ok (nm, .str v) := by
    have hne := (matchOptionRegex_name_facts hm).1
    unfold parseOption
    rw [hm]
    simp only [hne, if_false]
    rw [hnext]
    simp [hv, hvo]
  rw [parseLoop_cons]
  simp only [htokne, if_false, hopt, if_true, hpo, hlk, hval]
  rw [parseLoop_cons]
  simp only [hv, if_false, hvo, Bool.false_eq_true, hvd]

/-- C10 witness at `--output file.txt` against the `output` string option. -/
theorem C10_witness :
    parseLoop ["--output", "file.txt"] [outputOpt] ["--output", "file.txt"] 0
        { command := [], options := [], args := [] } [] =
      parseLoop ["--output", "file.txt"] [outputOpt] [] 2
        (recordPlainToken
          { command := [],
            options := setOpt [] outputOpt.name (Value.str "file.txt"),
            args := [] } "file.txt")
        (cachedLookupName [] [outputOpt] "output").2 := by
  exact C10_amended ["--output", "file.txt"] [outputOpt] [] 0
    { command := [], options := [], args := [] } [] "--output" "file.txt"
    "output" outputOpt (.str "file.txt") (by decide) (by decide) (by decide)
    (by decide) (by decide) (by decide) (by decide)

end ZoltraCLI
namespace ZoltraCLI

/-- C1 amended.  For a schema declaring one string-kind option (no choices,
no default) named `n`: parsing `--n=value` and parsing `--n value` (value
nonempty, not option-shaped, not dash-leading) bind the same options map
`{n: value}` — but the space-separated form additionally records the value
token as the command, while the `=` form leaves the command path empty, so
the two full results are not identical. -/
theorem C1_amended (n v tokEq tokSp : String)
    (hEq : matchOptionRegex tokEq = some (n, some v))
    (hSp : matchOptionRegex tokSp = some (n, none))
    (hv : v ≠ "") (hvo : isOption v = false) (hvd : startsWithDash v = false) :
    ZoltraCLIParser.parse ["node", "cli", tokEq] [mkOpt n none .string] [] =
      .ok { command := [], options := [(n, .str v)], args := [] } ∧
    ZoltraCLIParser.parse ["node", "cli", tokSp, v] [mkOpt n none .string] [] =
      .ok { command := [v], options := [(n, .str v)], args := [] } := by
  have hfind : findOptionByName [mkOpt n none .string] n = some (mkOpt n none .string) := by
    simp [findOptionByName, List.find?, mkOpt]
  have hlk : ∀ cache0 : Cache, cacheGet cache0 (longCacheKey n 1) = none →
      cachedLookupName cache0 [mkOpt n none .string] n =
        (some (mkOpt n none .string),
          cacheSet cache0 (longCacheKey n 1) (some (mkOpt n none .string))) := by
    intro cache0 hmiss
    unfold cachedLookupName
    simp only [List.length_cons, List.length_nil, Nat.zero_add, hmiss, hfind]
  have hpv : parseOptionValue (.str v) (mkOpt n none .string) = .ok (.str v) := by
    simp [parseOptionValue, mkOpt]
  constructor
  · have hne : tokEq ≠ "" := matchOptionRegex_token_ne_empty hEq
    have hopt : isOption tokEq = true := by simp [isOption, hEq]
    show (parseLoop [tokEq] [mkOpt n none .string] [tokEq] 0
      { command := [], options := seedDefaults [mkOpt n none .string], args := [] }
      ZoltraCLIParser.clearCache).1 = _
    have hseed : seedDefaults [mkOpt n none .string] = [] := by
      simp [seedDefaults, mkOpt]
    rw [hseed, parseLoop_cons]
    simp only [hne, if_false, hopt, if_true]
    have hpo2 : parseOption tokEq [tokEq] 0 = .ok (n, .str v) := by
      have hn := (matchOptionRegex_name_facts hEq).1
      unfold parseOption
      rw [hEq]
      simp [hn]
    simp only [hpo2, hlk ZoltraCLIParser.clearCache rfl, hpv, parseLoop_nil]
    simp [setOpt, mkOpt]
  · have hne : tokSp ≠ "" := matchOptionRegex_token_ne_empty hSp
    have hopt : isOption tokSp = true := by simp [isOption, hSp]
    have hpo : parseOption tokSp [tokSp, v] 0 = .ok (n, .str v) := by
      have hn := (matchOptionRegex_name_facts hSp).1
      unfold parseOption
      rw [hSp]
      simp only [hn, if_false]
      have hget : ([tokSp, v] : List String).get? (0 + 1) = some v := rfl
      rw [hget]
      simp [hv, hvo]
    show (parseLoop [tokSp, v] [mkOpt n none .string] [tokSp, v] 0
      { command := [], options := seedDefaults [mkOpt n none .string], args := [] }
      ZoltraCLIParser.clearCache).1 = _
    have hseed : seedDefaults [mkOpt n none .string] = [] := by
      simp [seedDefaults, mkOpt]
    rw [hseed, parseLoop_cons]
    simp only [hne, if_false, hopt, if_true]
    simp only [hpo, hlk ZoltraCLIParser.clearCache rfl, hpv]
    rw [parseLoop_cons]
    simp only [hv, if_false, hvo, Bool.false_eq_true, hvd, parseLoop_nil]
    simp [recordPlainToken, setOpt, mkOpt]

/-- C1 witness at the concrete pair `--output=file.txt` / `--output file.txt`. -/
theorem C1_witness :
    ZoltraCLIParser.parse ["node", "cli", "--output=file.txt"]
        [mkOpt "output" none .string] [] =
      .ok { command := [], options := [("output", .str "file.txt")], args := [] } ∧
    ZoltraCLIParser.parse ["node", "cli", "--output", "file.txt"]
        [mkOpt "output" none .string] [] =
      .ok { command := ["file.txt"], options := [("output", .str "file.txt")],
            args := [] } :=
  C1_amended "output" "file.txt" "--output=file.txt" "--output" (by decide)
    (by decide) (by decide) (by decide) (by decide)

end ZoltraCLI
namespace ZoltraCLI

theorem append_colon_inj {xs ys t t' : List Char}
    (hx : ':' ∉ xs) (hy : ':' ∉ ys)
    (h : xs ++ ':' :: t = ys ++ ':' :: t') : xs = ys ∧ t = t' := by
  induction xs generalizing ys with
  | nil =>
    cases ys with
    | nil => simpa using h
    | cons y ys' =>
      simp only [List.nil_append, List.cons_append, List.cons.injEq] at h
      have hmem : ':' ∈ y :: ys' := by
        rw [← h.1]
        exact List.mem_cons_self ':' ys'
      exact absurd hmem hy
  | cons x xs' ih =>
    cases ys with
    | nil =>
      simp only [List.nil_append, List.cons_append, List.cons.injEq] at h
      have hmem : ':' ∈ x :: xs' := by
        rw [h.1]
        exact List.mem_cons_self ':' xs'
      exact absurd hmem hx
    | cons y ys' =>
      simp only [List.cons_append, List.cons.injEq] at h
      obtain ⟨hxy, hrest⟩ := h
      have hx' : ':' ∉ xs' := fun hm => hx (List.mem_cons_of_mem x hm)
      have hy' : ':' ∉ ys' := fun hm => hy (List.mem_cons_of_mem y hm)
      obtain ⟨h1, h2⟩ := ih hx' hy' hrest
      exact ⟨by rw [hxy, h1], h2⟩

theorem longCacheKey_data (n : String) (L : Nat) :
    (longCacheKey n L).data = n.data ++ ':' :: (natToString L).data := by
  unfold longCacheKey
  rw [String.data_append, String.data_append]
  have : (":" : String).data = [':'] := rfl
  rw [this, List.append_assoc]
  rfl

theorem aliasCacheKey_data (c : Char) (L : Nat) :
    (aliasCacheKey c L).data =
      ['a', 'l', 'i', 'a', 's'] ++ ':' :: (c :: ':' :: (natToString L).data) := by
  unfold aliasCacheKey
  rw [String.data_append, String.data_append, String.data_append]
  rfl

theorem longCacheKey_inj {n n' : String} {L : Nat}
    (hn : ':' ∉ n.data) (hn' : ':' ∉ n'.data)
    (h : longCacheKey n L = longCacheKey n' L) : n = n' := by
  have hd := congrArg String.data h
  rw [longCacheKey_data, longCacheKey_data] at hd
  exact String.ext (append_colon_inj hn hn' hd).1

theorem longCacheKey_ne_aliasCacheKey {n : String} {c : Char} {L : Nat}
    (hn : ':' ∉ n.data) : longCacheKey n L ≠ aliasCacheKey c L := by
  intro h
  have hd := congrArg String.data h
  rw [longCacheKey_data, aliasCacheKey_data] at hd
  have hy : ':' ∉ (['a', 'l', 'i', 'a', 's'] : List Char) := by decide
  have h2 := (append_colon_inj hn hy hd).2
  have hlen := congrArg List.length h2
  simp at hlen
  omega

theorem aliasCacheKey_inj {c c' : Char} {L : Nat}
    (h : aliasCacheKey c L = aliasCacheKey c' L) : c = c' := by
  have hd := congrArg String.data h
  rw [aliasCacheKey_data, aliasCacheKey_data] at hd
  simp only [List.cons_append, List.nil_append, List.cons.injEq, and_true,
    true_and] at hd
  exact hd

theorem cacheGet_cacheSet (cache : Cache) (k : String) (v : Option CLIOption)
    (k' : String) :
    cacheGet (cacheSet cache k v) k' = if k = k' then some v else cacheGet cache k' := rfl

theorem cacheConsistent_empty (options : List CLIOption) :
    cacheConsistent [] options := by
  constructor
  · intro n hn r hr
    simp [cacheGet] at hr
  · intro c r hr
    simp [cacheGet] at hr

theorem consistent_after_set_long {cache : Cache} {options : List CLIOption}
    (hcc : cacheConsistent cache options) {nm : String} (hnm : ':' ∉ nm.data) :
    cacheConsistent
      (cacheSet cache (longCacheKey nm options.length) (findOptionByName options nm))
      options := by
  constructor
  · intro n hn r hr
    rw [cacheGet_cacheSet] at hr
    by_cases hk : longCacheKey nm options.length = longCacheKey n options.length
    · rw [if_pos hk] at hr
      have heq : nm = n := longCacheKey_inj hnm hn hk
      rw [← heq]
      exact (Option.some.inj hr).symm
    · rw [if_neg hk] at hr
      exact hcc.1 n hn r hr
  · intro c r hr
    rw [cacheGet_cacheSet] at hr
    rw [if_neg (longCacheKey_ne_aliasCacheKey hnm)] at hr
    exact hcc.2 c r hr

theorem consistent_after_set_alias {cache : Cache} {options : List CLIOption}
    (hcc : cacheConsistent cache options) (c : Char) :
    cacheConsistent
      (cacheSet cache (aliasCacheKey c options.length) (findOptionByAlias options c))
      options := by
  constructor
  · intro n hn r hr
    rw [cacheGet_cacheSet] at hr
    have hk : aliasCacheKey c options.length ≠ longCacheKey n options.length :=
      fun h => longCacheKey_ne_aliasCacheKey hn h.symm
    rw [if_neg hk] at hr
    exact hcc.1 n hn r hr
  · intro c' r hr
    rw [cacheGet_cacheSet] at hr
    by_cases hk : aliasCacheKey c options.length = aliasCacheKey c' options.length
    · rw [if_pos hk] at hr
      have heq : c = c' := aliasCacheKey_inj hk
      rw [← heq]
      exact (Option.some.inj hr).symm
    · rw [if_neg hk] at hr
      exact hcc.2 c' r hr

theorem cachedLookupName_eq {cache : Cache} {options : List CLIOption}
    {nm : String} (hcc : cacheConsistent cache options) (hnm : ':' ∉ nm.data) :
    (cachedLookupName cache options nm).1 = findOptionByName options nm ∧
    cacheConsistent (cachedLookupName cache options nm).2 options := by
  unfold cachedLookupName
  cases hg : cacheGet cache (longCacheKey nm options.length) with
  | some r =>
    simp only [hg]
    exact ⟨hcc.1 nm hnm r hg, hcc⟩
  | none =>
    simp only [hg]
    exact ⟨trivial, consistent_after_set_long hcc hnm⟩

theorem cachedLookupAlias_eq {cache : Cache} {options : List CLIOption}
    (c : Char) (hcc : cacheConsistent cache options) :
    (cachedLookupAlias cache options c).1 = findOptionByAlias options c ∧
    cacheConsistent (cachedLookupAlias cache options c).2 options := by
  unfold cachedLookupAlias
  cases hg : cacheGet cache (aliasCacheKey c options.length) with
  | some r =>
    simp only [hg]
    exact ⟨hcc.2 c r hg, hcc⟩
  | none =>
    simp only [hg]
    exact ⟨trivial, consistent_after_set_alias hcc c⟩

theorem clusterStep_cons (tokens : List String) (i : Nat)
    (options : List CLIOption) (c : Char) (cs : List Char)
    (m : List (String × Value)) (cache : Cache) :
    clusterStep tokens i options (c :: cs) m cache =
      match (cachedLookupAlias cache options c).1 with
      | some opt =>
          clusterStep tokens i options cs
            (setOpt m opt.name (clusterValue opt (tokens.get? (i + 1))))
            (cachedLookupAlias cache options c).2
      | none => clusterStep tokens i options cs m (cachedLookupAlias cache options c).2 := rfl

theorem clusterStepU_cons (tokens : List String) (i : Nat)
    (options : List CLIOption) (c : Char) (cs : List Char)
    (m : List (String × Value)) :
    clusterStepU tokens i options (c :: cs) m =
      match findOptionByAlias options c with
      | some opt =>
          clusterStepU tokens i options cs
            (setOpt m opt.name (clusterValue opt (tokens.get? (i + 1))))
      | none => clusterStepU tokens i options cs m := rfl

theorem clusterStep_eq (tokens : List String) (i : Nat)
    (options : List CLIOption) :
    ∀ (cs : List Char) (m : List (String × Value)) (cache : Cache),
      cacheConsistent cache options →
      (clusterStep tokens i options cs m cache).1 = clusterStepU tokens i options cs m ∧
      cacheConsistent (clusterStep tokens i options cs m cache).2 options := by
  intro cs
  induction cs with
  | nil => intro m cache hcc; exact ⟨rfl, hcc⟩
  | cons c cs ih =>
    intro m cache hcc
    obtain ⟨h1, h2⟩ := cachedLookupAlias_eq c hcc
    rw [clusterStep_cons, clusterStepU_cons, h1]
    cases hf : findOptionByAlias options c with
    | some opt =>
      simp only []
      exact ih _ _ h2
    | none =>
      simp only []
      exact ih _ _ h2

end ZoltraCLI
namespace ZoltraCLI

theorem parseLoopU_nil (tokens : List String) (options : List CLIOption)
    (i : Nat) (parsed : ParsedArgs) :
    parseLoopU tokens options [] i parsed = .ok parsed := rfl

/-- One unfolding of the uncached parse loop at a nonempty remainder. -/
theorem parseLoopU_cons (tokens : List String) (options : List CLIOption)
    (token : String) (rem1 : List String) (i : Nat) (parsed : ParsedArgs) :
    parseLoopU tokens options (token :: rem1) i parsed =
      if token = "" then parseLoopU tokens options rem1 (i + 1) parsed
      else if isOption token then
        match parseOption token tokens i with
        | .error e => .error e
        | .ok nv =>
            (match findOptionByName options nv.1 with
             | some opt =>
                 (match parseOptionValue nv.2 opt with
                  | .error e => .error e
                  | .ok v =>
                      parseLoopU tokens options rem1 (i + 1)
                        { parsed with options := setOpt parsed.options opt.name v })
             | none => parseLoopU tokens options rem1 (i + 1) parsed)
      else if startsWithDash token then
        (if (token.data.drop 1).length > 1 then
          parseLoopU tokens options rem1 (i + 1)
            { parsed with
                options := clusterStepU tokens i options (token.data.drop 1)
                  parsed.options }
        else
          match rem1 with
          | [] =>
              .ok { parsed with
                  options := clusterStepU tokens i options (token.data.drop 1)
                    parsed.options }
          | _ :: rem2 =>
              parseLoopU tokens options rem2 (i + 2)
                { parsed with
                    options := clusterStepU tokens i options (token.data.drop 1)
                      parsed.options })
      else
        parseLoopU tokens options rem1 (i + 1) (recordPlainToken parsed token) := by
  cases rem1 <;> rfl

theorem parseOption_ok_name_colon_free {token : String} {tokens : List String}
    {index : Nat} {nv : String × RawValue} (ht : isOption token = true)
    (h : parseOption token tokens index = .ok nv) : ':' ∉ nv.1.data := by
  obtain ⟨⟨nm, v⟩, hm⟩ := Option.isSome_iff_exists.mp ht
  obtain ⟨hne, hchars⟩ := matchOptionRegex_name_facts hm
  unfold parseOption at h
  rw [hm] at h
  simp only [hne, if_false] at h
  have hnm : nv.1 = nm := by
    cases v with
    | some val =>
      have h' : (Except.ok (nm, RawValue.str val) :
          Except CLIError (String × RawValue)) = Except.ok nv := h
      have := Except.ok.inj h'
      rw [← this]
    | none =>
      cases hg : tokens.get? (index + 1) with
      | none =>
        rw [hg] at h
        have h' : (Except.ok (nm, RawValue.bool true) :
            Except CLIError (String × RawValue)) = Except.ok nv := h
        have := Except.ok.inj h'
        rw [← this]
      | some nt =>
        rw [hg] at h
        have h' : (if nt ≠ "" ∧ isOption nt = false then
            (Except.ok (nm, RawValue.str nt) :
              Except CLIError (String × RawValue))
          else Except.ok (nm, RawValue.bool true)) = Except.ok nv := h
        by_cases hc : nt ≠ "" ∧ isOption nt = false
        · rw [if_pos hc] at h'
          have := Except.ok.inj h'
          rw [← this]
        · rw [if_neg hc] at h'
          have := Except.ok.inj h'
          rw [← this]
  rw [hnm]
  intro hcolon
  have hch := hchars ':' hcolon
  have : isNameChar ':' = false := by decide
  rw [this] at hch
  exact Bool.false_ne_true hch

theorem parseLoop_cached_eq (tokens : List String) (options : List CLIOption) :
    ∀ (k : Nat) (rem : List String), rem.length ≤ k →
    ∀ (i : Nat) (parsed : ParsedArgs) (cache : Cache),
      cacheConsistent cache options →
      (parseLoop tokens options rem i parsed cache).1 =
        parseLoopU tokens options rem i parsed ∧
      cacheConsistent (parseLoop tokens options rem i parsed cache).2 options := by
  intro k
  induction k with
  | zero =>
    intro rem hlen i parsed cache hcc
    have hnil : rem = [] := List.length_eq_zero.mp (Nat.le_zero.mp hlen)
    subst hnil
    rw [parseLoop_nil, parseLoopU_nil]
    exact ⟨rfl, hcc⟩
  | succ k ih =>
    intro rem hlen i parsed cache hcc
    cases rem with
    | nil =>
      rw [parseLoop_nil, parseLoopU_nil]
      exact ⟨rfl, hcc⟩
    | cons token rem1 =>
      have hlen1 : rem1.length ≤ k := by
        simp only [List.length_cons] at hlen
        omega
      rw [parseLoop_cons, parseLoopU_cons]
      by_cases h0 : token = ""
      · simp only [h0, if_true]
        exact ih rem1 hlen1 (i + 1) parsed cache hcc
      · simp only [h0, if_false]
        by_cases h1 : isOption token = true
        · simp only [h1, if_true]
          obtain ⟨nv, hnv⟩ := parseOption_isOption_ok tokens i h1
          simp only [hnv]
          have hfree := parseOption_ok_name_colon_free h1 hnv
          obtain ⟨hl1, hl2⟩ := cachedLookupName_eq hcc hfree
          rw [hl1]
          cases hf : findOptionByName options nv.1 with
          | some opt =>
            simp only []
            cases hpv : parseOptionValue nv.2 opt with
            | error e =>
              simp only []
              exact ⟨trivial, hl2⟩
            | ok v =>
              simp only []
              exact ih rem1 hlen1 (i + 1) _ _ hl2
          | none =>
            simp only []
            exact ih rem1 hlen1 (i + 1) parsed _ hl2
        · simp only [h1, if_false]
          by_cases h2 : startsWithDash token = true
          · simp only [h2, if_true]
            obtain ⟨hc1, hc2⟩ :=
              clusterStep_eq tokens i options (token.data.drop 1) parsed.options cache hcc
            rw [hc1]
            by_cases h3 : (token.data.drop 1).length > 1
            · simp only [h3, if_true]
              exact ih rem1 hlen1 (i + 1) _ _ hc2
            · simp only [h3, if_false]
              cases rem1 with
              | nil => exact ⟨rfl, hc2⟩
              | cons t2 rem2 =>
                have hlen2 : rem2.length ≤ k := by
                  simp only [List.length_cons] at hlen
                  omega
                exact ih rem2 hlen2 (i + 2) _ _ hc2
          · simp only [h2, if_false]
            exact ih rem1 hlen1 (i + 1) _ _ hcc

/-- C8 amended.  Starting from any cache consistent with the options schema
(the empty or freshly cleared cache in particular), every cached lookup agrees
with the direct linear scan, cached parsing is observably identical to the
uncached reference parser, and the cache left behind is again consistent with
that same schema — so the equivalence holds across any sequence of parse calls
over a single schema.  (Across schemas of equal length the coarse
`(name, schema-length)` key collides, and the equivalence fails: see the
counterexample.) -/
theorem C8_amended (cache : Cache) (argv : List String)
    (options : List CLIOption) (args : List CLIArgument)
    (hcc : cacheConsistent cache options) :
    (ZoltraCLIParser.parseWith cache argv options args).1 =
      parseU argv options args ∧
    cacheConsistent (ZoltraCLIParser.parseWith cache argv options args).2 options ∧
    (∀ nm : String, ':' ∉ nm.data →
      (cachedLookupName cache options nm).1 = findOptionByName options nm) ∧
    (∀ c : Char, (cachedLookupAlias cache options c).1 = findOptionByAlias options c) := by
  obtain ⟨h1, h2⟩ := parseLoop_cached_eq (argv.drop 2) options (argv.drop 2).length
    (argv.drop 2) le_rfl 0
    { command := [], options := seedDefaults options, args := [] } cache hcc
  exact ⟨h1, h2, fun nm hnm => (cachedLookupName_eq hcc hnm).1,
    fun c => (cachedLookupAlias_eq c hcc).1⟩

/-- C8 witness: a parse from the empty cache against the single-string-option
schema. -/
theorem C8_witness :
    (ZoltraCLIParser.parseWith [] ["node", "cli", "--o=x"]
        [mkOpt "o" none .string] []).1 =
      parseU ["node", "cli", "--o=x"] [mkOpt "o" none .string] [] ∧
    cacheConsistent
      (ZoltraCLIParser.parseWith [] ["node", "cli", "--o=x"]
        [mkOpt "o" none .string] []).2 [mkOpt "o" none .string] ∧
    (∀ nm : String, ':' ∉ nm.data →
      (cachedLookupName [] [mkOpt "o" none .string] nm).1 =
        findOptionByName [mkOpt "o" none .string] nm) ∧
    (∀ c : Char, (cachedLookupAlias [] [mkOpt "o" none .string] c).1 =
      findOptionByAlias [mkOpt "o" none .string] c) :=
  C8_amended [] ["node", "cli", "--o=x"] [mkOpt "o" none .string] []
    (cacheConsistent_empty [mkOpt "o" none .string])

/-- C8 counterexample.  Two parse calls with different schemas of the same
length: the first (string-kind `o`) caches its spec under the key `o:1`; the
second parse, against a number-kind `o`, hits that stale entry and returns the
string `"x"`, while the direct linear scan over its own schema raises the
TypeError — cached and uncached parsing are observably different. -/
theorem C8_counterexample :
    (ZoltraCLIParser.parseWith
        (ZoltraCLIParser.parseWith [] ["node", "cli", "--o=x"]
          [mkOpt "o" none .string] []).2
        ["node", "cli", "--o=x"] [mkOpt "o" none .number] []).1 =
      .ok { command := [], options := [("o", .str "x")], args := [] } ∧
    parseU ["node", "cli", "--o=x"] [mkOpt "o" none .number] [] =
      .error (.typeErr "o" "x") := by decide

end ZoltraCLI
